import Mathlib

/-!
# Verification of the RWECC MVC alert cycle (`main.go`)

Shallow embedding of the Go program that polls the Raleigh-Wake ECC traffic
incident feed, filters motor-vehicle-collision (MVC) records, posts Discord
webhook notifications for records not previously announced, and persists the
set of announced incident keys in a JSON state file.

The embedding follows the later revision of the source (the one with the
severity-color logic and optional map thumbnail); the earlier `main.go`
revision shares the whole dedup/persist cycle verbatim.

Modelling conventions:
* JSON documents are modelled by the inductive `Json` below; numbers are
  carried at integer precision because no verified property inspects the
  latitude/longitude values.
* Go's `map[string]bool` is modelled at two levels.  `GoBoolMap`
  distinguishes the nil map from an allocated one (`encoding/json.Unmarshal`
  of the JSON literal `null` succeeds and sets the target map to nil, whose
  reads yield `false` but whose entry assignment panics at run time);
  `unmarshalBoolMapGo`/`loadSentIncidentsGo` and `runLoopGo` carry this
  distinction, including the panic path.  The entry-list view — `mapGet` for
  Go map indexing (zero value `false` for a missing key), `mapInsert` for Go
  map assignment, `unmarshalBoolMap`/`loadSentIncidents` for loading — is
  the projection of the faithful layer onto the loaded entries
  (`loadSentIncidents_is_entries`), adequate for properties that only read
  them; `runLoopGo_mk` proves the plain loop `runLoop` equal to the Go loop
  on every allocated map.
* HTTP effects are modelled by explicit inputs: the fetch outcome is a
  `FetchResult` and the per-notification webhook outcome (marshal success and
  POST result) is drawn from an oracle `Nat → Bool × PostResult` indexed by
  the running alert count.  `sendToDiscord` returns the outcome that the Go
  function merely logs; the caller discards it, exactly as in the source.
* Wall-clock time and timezone conversion affect only the displayed embed
  timestamp in the source (parse failure substitutes `time.Now()` and the
  loop continues); no verified property mentions the rendered time, so the
  embed model omits that field.
-/

/-- A JSON value, as parsed from a request body or the state file. -/
inductive Json where
  | null : Json
  | bool (b : Bool) : Json
  | num (n : Int) : Json
  | str (s : String) : Json
  | arr (elems : List Json) : Json
  | obj (entries : List (String × Json)) : Json
deriving Repr

/-- The `Incident` struct: JSON object shape of one feed record. -/
structure Incident where
  jurisdiction : String
  problem : String
  address : String
  lat : Int
  long : Int
  timestamp : String
deriving Repr, DecidableEq

/-- Go map indexing `m[k]` on a `map[string]bool`: the stored value, or the
zero value `false` when the key is absent. -/
def mapGet (m : List (String × Bool)) (k : String) : Bool :=
  match m with
  | [] => false
  | (k2, v) :: rest => if k2 = k then v else mapGet rest k

/-- Whether the key is present in the map (with either boolean value). -/
def mapHasKey (m : List (String × Bool)) (k : String) : Bool :=
  match m with
  | [] => false
  | (k2, _) :: rest => if k2 = k then true else mapHasKey rest k

/-- Go map assignment `m[k] = v`: overwrite the entry in place, or append a
new entry. -/
def mapInsert (m : List (String × Bool)) (k : String) (v : Bool) :
    List (String × Bool) :=
  match m with
  | [] => [(k, v)]
  | (k2, v2) :: rest =>
      if k2 = k then (k2, v) :: rest else (k2, v2) :: mapInsert rest k v

/-- The keys of the map, in entry order. -/
def mapKeys (m : List (String × Bool)) : List String :=
  m.map Prod.fst

/-- Model of `encoding/json.Unmarshal` applied to a JSON object's entries into a
`map[string]bool`, entry by entry in document order (a duplicated key keeps
the later value, as in Go).  A `null` entry value is a no-op store leaving
the zero value `false`; any other non-boolean value is a type error. -/
def boolEntries (entries : List (String × Json)) (acc : List (String × Bool)) :
    Except String (List (String × Bool)) :=
  match entries with
  | [] => .ok acc
  | (k, Json.bool b) :: rest => boolEntries rest (mapInsert acc k b)
  | (k, Json.null) :: rest => boolEntries rest (mapInsert acc k false)
  | (_, _) :: _ => .error "json: cannot unmarshal value into Go value of type bool"

/-- Entry-list view of `encoding/json.Unmarshal(data, &sentIDs)` for
`sentIDs : map[string]bool`: the entries of the decoded map.  Decoding the
literal `null` succeeds with no entries — in Go it sets the map to nil, a
distinction this view drops and `unmarshalBoolMapGo` below keeps — and a
top-level value that is neither `null` nor an object is a type error. -/
def unmarshalBoolMap (v : Json) : Except String (List (String × Bool)) :=
  match v with
  | Json.null => .ok []
  | Json.obj entries => boolEntries entries []
  | _ => .error "json: cannot unmarshal value into Go value of type map[string]bool"

/-- The bytes of a file (or of an HTTP response body), classified at the
granularity the program observes: empty, not valid JSON at all, or a parsed
JSON document. -/
inductive FileContent where
  | empty : FileContent
  | invalid : FileContent
  | json (v : Json) : FileContent
deriving Repr

/-- Function `loadSentIncidents`: read the state file into a `map[string]bool`.
`none` is a non-existent file (`os.IsNotExist`), which yields the empty map
without error; an empty file also yields the empty map; otherwise the bytes
are unmarshalled.  (A read error other than non-existence is not modelled:
no claim distinguishes it from the unmarshal error path.) -/
def loadSentIncidents (file : Option FileContent) :
    Except String (List (String × Bool)) :=
  match file with
  | none => .ok []
  | some FileContent.empty => .ok []
  | some FileContent.invalid => .error "invalid character in JSON input"
  | some (FileContent.json v) => unmarshalBoolMap v

/-- Function `saveSentIncidents`: `json.MarshalIndent` of the map and `os.WriteFile`.
The written bytes encode exactly the JSON object mapping each stored key to
its stored boolean.  (`MarshalIndent` emits the object with sorted keys and
indentation; entry order and whitespace are irrelevant to every reader of the
file, so the model keeps entry order.) -/
def saveSentIncidents (m : List (String × Bool)) : FileContent :=
  FileContent.json (Json.obj (m.map fun kv => (kv.1, Json.bool kv.2)))

/-- A Go `map[string]bool` value as `main` actually holds it: either the nil
map (what `json.Unmarshal` leaves after decoding the literal `null`) or an
allocated map with its entries.  Indexing a nil map yields the zero value,
but assigning to an entry of a nil map is a run-time panic. -/
inductive GoBoolMap where
  | nil : GoBoolMap
  | mk (entries : List (String × Bool)) : GoBoolMap
deriving Repr, DecidableEq

/-- Go map indexing on a possibly-nil map: a nil map reads as empty. -/
def goMapGet (m : GoBoolMap) (k : String) : Bool :=
  match m with
  | GoBoolMap.nil => false
  | GoBoolMap.mk entries => mapGet entries k

/-- The entries of a possibly-nil map (a nil map has none). -/
def goMapEntries (m : GoBoolMap) : List (String × Bool) :=
  match m with
  | GoBoolMap.nil => []
  | GoBoolMap.mk entries => entries

/-- Model of `json.Unmarshal(data, &sentIDs)` keeping the nil-map
distinction: decoding the literal `null` succeeds and sets the map to nil. -/
def unmarshalBoolMapGo (v : Json) : Except String GoBoolMap :=
  match v with
  | Json.null => .ok GoBoolMap.nil
  | Json.obj entries =>
      match boolEntries entries [] with
      | .ok m => .ok (GoBoolMap.mk m)
      | .error e => .error e
  | _ => .error "json: cannot unmarshal value into Go value of type map[string]bool"

/-- Function `loadSentIncidents` keeping the nil-map distinction: the
`make(map[string]bool)` result returned on a missing or empty file is an
allocated empty map; only a file holding the literal `null` produces nil. -/
def loadSentIncidentsGo (file : Option FileContent) :
    Except String GoBoolMap :=
  match file with
  | none => .ok (GoBoolMap.mk [])
  | some FileContent.empty => .ok (GoBoolMap.mk [])
  | some FileContent.invalid => .error "invalid character in JSON input"
  | some (FileContent.json v) => unmarshalBoolMapGo v

/-- Whether `pat` is a prefix of `l` (character lists). -/
def charsHavePre (pat l : List Char) : Bool :=
  match pat, l with
  | [], _ => true
  | _ :: _, [] => false
  | a :: ps, b :: ls => a = b && charsHavePre ps ls

/-- Whether `pat` occurs as a contiguous substring of `l` (character lists). -/
def charsHaveSub (pat : List Char) : List Char → Bool
  | [] => charsHavePre pat []
  | c :: ls => charsHavePre pat (c :: ls) || charsHaveSub pat ls

/-- Model of `strings.Contains(s, pat)`: `pat` occurs as a substring of `s`. -/
def strContains (s pat : String) : Bool :=
  charsHaveSub pat.data s.data

/-- Model of `strings.ToLower` (ASCII case mapping; every pattern the program matches
case-insensitively is ASCII). -/
def strToLower (s : String) : String :=
  String.mk (s.data.map Char.toLower)

/-- The embed color chosen in `sendToDiscord`: case-insensitive substring
match on the problem text, first matching rule wins.  Red (15158332) for
"injur", yellow (15844367) for "damage" or "hit & run", default blue
(3447003) otherwise. -/
def embedColor (problem : String) : Nat :=
  let problemLower := strToLower problem
  if strContains problemLower "injur" then 15158332
  else if strContains problemLower "damage" || strContains problemLower "hit & run"
    then 15844367
  else 3447003

/-- One labeled field of a Discord embed. -/
structure EmbedField where
  name : String
  value : String
  inlineFlag : Bool
deriving Repr, DecidableEq

/-- The Discord embed built for one incident.  The rendered RFC 3339
timestamp and the optional static-map thumbnail URL depend on wall-clock
time and float formatting; no verified property reads them, so they are
omitted from the model. -/
structure DiscordEmbed where
  title : String
  color : Nat
  fields : List EmbedField
  footerText : String
deriving Repr, DecidableEq

/-- The embed `sendToDiscord` constructs for an incident. -/
def buildEmbed (incident : Incident) : DiscordEmbed :=
  { title := incident.problem
    color := embedColor incident.problem
    fields := [⟨"Address", incident.address, false⟩,
               ⟨"Jurisdiction", incident.jurisdiction, false⟩]
    footerText := "Fetched from Raleigh-Wake ECC" }

/-- Outcome of the single `http.Post` to the webhook. -/
inductive PostResult where
  | transportError : PostResult
  | status (code : Nat) : PostResult
deriving Repr, DecidableEq

/-- What `sendToDiscord` ends up logging: a payload-marshal error, a POST
transport error, a non-2xx response, or success.  The Go function returns
nothing; this value is the observable outcome and every caller discards it. -/
inductive NotifyOutcome where
  | marshalError : NotifyOutcome
  | sendError : NotifyOutcome
  | non2xx : NotifyOutcome
  | delivered : NotifyOutcome
deriving Repr, DecidableEq

/-- Function `sendToDiscord`: build the embed and payload, marshal it, POST it.
`marshalOk` and `post` are the environment's responses to the two fallible
steps.  Every failure is logged and swallowed: the function always returns,
and the returned outcome is never read by the caller. -/
def sendToDiscord (incident : Incident) (marshalOk : Bool) (post : PostResult) :
    NotifyOutcome :=
  let _embed := buildEmbed incident
  if marshalOk = false then NotifyOutcome.marshalError
  else
    match post with
    | PostResult.transportError => NotifyOutcome.sendError
    | PostResult.status code =>
        if code < 200 || 299 < code then NotifyOutcome.non2xx
        else NotifyOutcome.delivered

/-- The dedup identity: `incident.Timestamp + " " + incident.Address`. -/
def incidentKey (incident : Incident) : String :=
  incident.timestamp ++ " " ++ incident.address

/-- The per-incident loop of `main`, from `newAlertsSent := 0` to the end of
the `for` statement.  `o` supplies the webhook environment's response to the
n-th notification attempt.  Returns the final `sentIncidents` map, the final
`newAlertsSent` counter, and — as the observable effect trace — the keys of
the incidents for which `sendToDiscord` was invoked, in feed order. -/
def runLoop (o : Nat → Bool × PostResult) :
    List Incident → List (String × Bool) → Nat →
    List (String × Bool) × Nat × List String
  | [], sent, count => (sent, count, [])
  | incident :: rest, sent, count =>
      let key := incident.timestamp ++ " " ++ incident.address
      if (strContains incident.problem "MVC" && !(mapGet sent key)) = true then
        let (marshalOk, post) := o count
        let _outcome := sendToDiscord incident marshalOk post
        let (s, c, ks) := runLoop o rest (mapInsert sent key true) (count + 1)
        (s, c, key :: ks)
      else
        runLoop o rest sent count

/-- How the per-incident loop of `main` ends when the loaded map may be nil:
normal completion with the final map, counter and send trace, or the
run-time panic raised by `sentIncidents[incidentKey] = true` on a nil map,
with the keys sent before dying (the panicking incident's webhook POST has
already happened when the assignment runs). -/
inductive GoLoopResult where
  | done (sent : GoBoolMap) (count : Nat) (sends : List String) : GoLoopResult
  | panicked (sends : List String) : GoLoopResult
deriving Repr, DecidableEq

/-- The per-incident loop of `main` over a possibly-nil `sentIncidents` map.
Identical to `runLoop` except that the assignment marking the key panics
when the map is nil: the notification for that incident has been sent, the
counter is not incremented, the remaining feed is not processed, and the
cycle never reaches the save. -/
def runLoopGo (o : Nat → Bool × PostResult) :
    List Incident → GoBoolMap → Nat → GoLoopResult
  | [], sent, count => GoLoopResult.done sent count []
  | incident :: rest, sent, count =>
      let key := incident.timestamp ++ " " ++ incident.address
      if (strContains incident.problem "MVC" && !(goMapGet sent key)) = true then
        let (marshalOk, post) := o count
        let _outcome := sendToDiscord incident marshalOk post
        match sent with
        | GoBoolMap.nil => GoLoopResult.panicked [key]
        | GoBoolMap.mk m =>
            match runLoopGo o rest (GoBoolMap.mk (mapInsert m key true)) (count + 1) with
            | GoLoopResult.done s c ks => GoLoopResult.done s c (key :: ks)
            | GoLoopResult.panicked ks => GoLoopResult.panicked (key :: ks)
      else runLoopGo o rest sent count

/-- Decode one field of an `Incident` from a JSON object entry, as
`encoding/json` does: the three text fields and the timestamp require a JSON
string, the coordinates require a number, `null` stores nothing, unknown
field names are ignored, and any other type mismatch is an error. -/
def setIncidentField (incident : Incident) (k : String) (v : Json) :
    Except String Incident :=
  match v with
  | Json.null => .ok incident
  | _ =>
    if k = "jurisdiction" then
      match v with
      | Json.str s => .ok { incident with jurisdiction := s }
      | _ => .error "json: cannot unmarshal value into Go value of type string"
    else if k = "problem" then
      match v with
      | Json.str s => .ok { incident with problem := s }
      | _ => .error "json: cannot unmarshal value into Go value of type string"
    else if k = "address" then
      match v with
      | Json.str s => .ok { incident with address := s }
      | _ => .error "json: cannot unmarshal value into Go value of type string"
    else if k = "lat" then
      match v with
      | Json.num n => .ok { incident with lat := n }
      | _ => .error "json: cannot unmarshal value into Go value of type float64"
    else if k = "long" then
      match v with
      | Json.num n => .ok { incident with long := n }
      | _ => .error "json: cannot unmarshal value into Go value of type float64"
    else if k = "timestamp" then
      match v with
      | Json.str s => .ok { incident with timestamp := s }
      | _ => .error "json: cannot unmarshal value into Go value of type string"
    else .ok incident

/-- Fold `setIncidentField` over an object's entries in document order. -/
def setIncidentFields (incident : Incident) :
    List (String × Json) → Except String Incident
  | [] => .ok incident
  | (k, v) :: rest =>
      match setIncidentField incident k v with
      | .ok i2 => setIncidentFields i2 rest
      | .error e => .error e

/-- The zero value of the `Incident` struct. -/
def zeroIncident : Incident :=
  { jurisdiction := "", problem := "", address := "", lat := 0, long := 0,
    timestamp := "" }

/-- Decode one array element into an `Incident`: an object is decoded field
by field over the zero value, `null` is a no-op leaving the zero value, and
any other JSON type is an error. -/
def decodeIncident (v : Json) : Except String Incident :=
  match v with
  | Json.null => .ok zeroIncident
  | Json.obj entries => setIncidentFields zeroIncident entries
  | _ => .error "json: cannot unmarshal value into Go value of type main.Incident"

/-- Decode every element of the feed array, first error wins. -/
def decodeIncidentList : List Json → Except String (List Incident)
  | [] => .ok []
  | v :: rest =>
      match decodeIncident v with
      | .error e => .error e
      | .ok i =>
          match decodeIncidentList rest with
          | .error e => .error e
          | .ok is => .ok (i :: is)

/-- Model of `json.Unmarshal(body, &incidents)` for `incidents : []Incident`: an empty
body or invalid JSON is a syntax error, `null` leaves the nil slice, an array
is decoded element-wise, and any other top-level value is a type error. -/
def unmarshalIncidents (body : FileContent) : Except String (List Incident) :=
  match body with
  | FileContent.empty => .error "unexpected end of JSON input"
  | FileContent.invalid => .error "invalid character in JSON input"
  | FileContent.json Json.null => .ok []
  | FileContent.json (Json.arr elems) => decodeIncidentList elems
  | FileContent.json _ =>
      .error "json: cannot unmarshal value into Go value of type []main.Incident"

/-- Outcome of the `http.Get` on the feed URL together with `io.ReadAll` of
the response body. -/
inductive FetchResult where
  | transportError : FetchResult
  | readError : FetchResult
  | body (content : FileContent) : FetchResult

/-- How one invocation of `main` terminates, after the state file was loaded
successfully or not: each `log.Fatalf` call site, or normal completion with
the reported count of new alerts. -/
inductive MainOutcome where
  | fatalLoad : MainOutcome
  | fatalFetch : MainOutcome
  | fatalRead : MainOutcome
  | fatalParse : MainOutcome
  | done (alerts : Nat) : MainOutcome
deriving Repr

/-- Observable trace of one invocation of `main`: how it terminated, the
`os.WriteFile` calls performed on the state file in order, and the keys of
the incidents for which `sendToDiscord` was invoked, in order. -/
structure RunTrace where
  outcome : MainOutcome
  writes : List FileContent
  sends : List String
deriving Repr

/-- One invocation of `main`, starting after configuration loading (which is
out of scope): load the state file, fetch and parse the feed, run the
per-incident loop, and save the state file if any new alert was sent. -/
def mainRun (stateFile : Option FileContent) (fetch : FetchResult)
    (o : Nat → Bool × PostResult) : RunTrace :=
  match loadSentIncidents stateFile with
  | .error _ => ⟨MainOutcome.fatalLoad, [], []⟩
  | .ok sentIncidents =>
    match fetch with
    | FetchResult.transportError => ⟨MainOutcome.fatalFetch, [], []⟩
    | FetchResult.readError => ⟨MainOutcome.fatalRead, [], []⟩
    | FetchResult.body body =>
      match unmarshalIncidents body with
      | .error _ => ⟨MainOutcome.fatalParse, [], []⟩
      | .ok incidents =>
        let (sent, newAlertsSent, keys) := runLoop o incidents sentIncidents 0
        if newAlertsSent > 0 then
          ⟨MainOutcome.done newAlertsSent, [saveSentIncidents sent], keys⟩
        else
          ⟨MainOutcome.done newAlertsSent, [], keys⟩

/-- The state file after a run: the last write, or the original content when
nothing was written. -/
def fileAfter (initial : Option FileContent) (writes : List FileContent) :
    Option FileContent :=
  match writes.getLast? with
  | none => initial
  | some w => some w

/-- Specification-level description of the notified keys (used to settle the
filter claim): an incident is notified exactly when its problem text contains
the case-sensitive substring "MVC", its key is not in the loaded sent-set
(i.e. not mapped to `true` by the loaded map), and its key was not already
notified earlier in the same run.  `earlier` accumulates the keys notified so
far. -/
def notifiedSpec (sent0 : List (String × Bool)) :
    List Incident → List String → List String
  | [], _ => []
  | incident :: rest, earlier =>
      let key := incidentKey incident
      if strContains incident.problem "MVC" && !(mapGet sent0 key)
          && !(earlier.contains key) then
        key :: notifiedSpec sent0 rest (earlier ++ [key])
      else
        notifiedSpec sent0 rest earlier

/-- Whether a JSON document is an object every value of which is a boolean:
the shape the state file is specified to have. -/
def isBoolObj (v : Json) : Bool :=
  match v with
  | Json.obj entries =>
      entries.all fun kv =>
        match kv.2 with
        | Json.bool _ => true
        | _ => false
  | _ => false

/-! ## Lemmas about the Go map model -/

theorem mapKeys_nil : mapKeys [] = [] := rfl

theorem mapKeys_cons (k : String) (v : Bool) (m : List (String × Bool)) :
    mapKeys ((k, v) :: m) = k :: mapKeys m := rfl

theorem mapGet_insert (m : List (String × Bool)) (k k2 : String) (v : Bool) :
    mapGet (mapInsert m k v) k2 = if k = k2 then v else mapGet m k2 := by
  induction m with
  | nil =>
      simp only [mapInsert, mapGet]
  | cons hd tl ih =>
      obtain ⟨k1, v1⟩ := hd
      by_cases h1 : k1 = k
      · subst h1
        simp only [mapInsert, if_pos rfl, mapGet]
        by_cases h2 : k1 = k2 <;> simp [h2]
      · simp only [mapInsert, if_neg h1, mapGet, ih]
        by_cases h2 : k1 = k2
        · subst h2
          have hk : ¬k = k1 := fun h => h1 h.symm
          simp [hk]
        · simp [h2]

theorem mapHasKey_iff (m : List (String × Bool)) (k : String) :
    mapHasKey m k = true ↔ k ∈ mapKeys m := by
  induction m with
  | nil => simp [mapHasKey, mapKeys]
  | cons hd tl ih =>
      obtain ⟨k1, v1⟩ := hd
      by_cases h1 : k1 = k
      · subst h1
        simp [mapHasKey, mapKeys_cons]
      · simp only [mapHasKey, if_neg h1, mapKeys_cons, List.mem_cons, ih]
        constructor
        · exact fun h => Or.inr h
        · rintro (h | h)
          · exact absurd h.symm h1
          · exact h

theorem mapKeys_insert (m : List (String × Bool)) (k : String) (v : Bool) :
    mapKeys (mapInsert m k v) =
      if mapHasKey m k = true then mapKeys m else mapKeys m ++ [k] := by
  induction m with
  | nil => simp [mapInsert, mapKeys, mapHasKey]
  | cons hd tl ih =>
      obtain ⟨k1, v1⟩ := hd
      by_cases h1 : k1 = k
      · subst h1
        simp [mapInsert, mapKeys_cons, mapHasKey]
      · have step : mapInsert ((k1, v1) :: tl) k v = (k1, v1) :: mapInsert tl k v := by
          simp [mapInsert, if_neg h1]
        have cond : mapHasKey ((k1, v1) :: tl) k = mapHasKey tl k := by
          simp [mapHasKey, if_neg h1]
        rw [step, cond, mapKeys_cons, ih]
        by_cases h2 : mapHasKey tl k = true
        · simp [h2, mapKeys_cons]
        · simp [h2, mapKeys_cons]

theorem mem_mapKeys_insert (m : List (String × Bool)) (k k2 : String) (v : Bool) :
    k2 ∈ mapKeys (mapInsert m k v) ↔ k2 ∈ mapKeys m ∨ k2 = k := by
  rw [mapKeys_insert]
  by_cases h : mapHasKey m k = true
  · rw [if_pos h]
    constructor
    · exact fun h2 => Or.inl h2
    · rintro (h2 | rfl)
      · exact h2
      · exact (mapHasKey_iff m k2).mp h
  · rw [if_neg h]
    simp [List.mem_append]

theorem mapKeys_insert_nodup (m : List (String × Bool)) (k : String) (v : Bool)
    (h : (mapKeys m).Nodup) : (mapKeys (mapInsert m k v)).Nodup := by
  rw [mapKeys_insert]
  by_cases hk : mapHasKey m k = true
  · rwa [if_pos hk]
  · rw [if_neg hk]
    refine List.Nodup.append h (List.nodup_singleton k) ?_
    intro a ha hb
    rw [List.mem_singleton] at hb
    subst hb
    exact hk ((mapHasKey_iff m a).mpr ha)

theorem mapInsert_extend (m : List (String × Bool)) (k : String) (v : Bool)
    (h : mapHasKey m k = false) : mapInsert m k v = m ++ [(k, v)] := by
  induction m with
  | nil => simp [mapInsert]
  | cons hd tl ih =>
      obtain ⟨k1, v1⟩ := hd
      simp only [mapHasKey] at h
      by_cases h1 : k1 = k
      · rw [if_pos h1] at h
        exact absurd h (by simp)
      · rw [if_neg h1] at h
        simp [mapInsert, if_neg h1, ih h]

/-! ## Lemmas about the per-incident loop -/

theorem listContains_iff (l : List String) (k : String) :
    l.contains k = true ↔ k ∈ l := by
  simp [List.contains, List.elem_iff]

theorem runLoop_nil (o : Nat → Bool × PostResult) (sent : List (String × Bool))
    (count : Nat) : runLoop o [] sent count = (sent, count, []) := rfl

theorem runLoop_cons (o : Nat → Bool × PostResult) (incident : Incident)
    (rest : List Incident) (sent : List (String × Bool)) (count : Nat) :
    runLoop o (incident :: rest) sent count =
      if (strContains incident.problem "MVC"
            && !(mapGet sent (incidentKey incident))) = true then
        ((runLoop o rest (mapInsert sent (incidentKey incident) true) (count + 1)).1,
         (runLoop o rest (mapInsert sent (incidentKey incident) true) (count + 1)).2.1,
         incidentKey incident ::
           (runLoop o rest (mapInsert sent (incidentKey incident) true) (count + 1)).2.2)
      else runLoop o rest sent count := by
  show (if (strContains incident.problem "MVC"
          && !(mapGet sent (incidentKey incident))) = true then _ else _) = _
  by_cases h : (strContains incident.problem "MVC"
      && !(mapGet sent (incidentKey incident))) = true
  · rw [if_pos h, if_pos h]
    rfl
  · rw [if_neg h, if_neg h]

theorem runLoop_oracle_irrelevant (o1 o2 : Nat → Bool × PostResult)
    (incidents : List Incident) (sent : List (String × Bool)) (count : Nat) :
    runLoop o1 incidents sent count = runLoop o2 incidents sent count := by
  induction incidents generalizing sent count with
  | nil => rfl
  | cons incident rest ih =>
      rw [runLoop_cons, runLoop_cons]
      by_cases h : (strContains incident.problem "MVC"
          && !(mapGet sent (incidentKey incident))) = true
      · rw [if_pos h, if_pos h, ih]
      · rw [if_neg h, if_neg h, ih]

theorem runLoop_count (o : Nat → Bool × PostResult) (incidents : List Incident)
    (sent : List (String × Bool)) (count : Nat) :
    (runLoop o incidents sent count).2.1 =
      count + (runLoop o incidents sent count).2.2.length := by
  induction incidents generalizing sent count with
  | nil => rfl
  | cons incident rest ih =>
      rw [runLoop_cons]
      by_cases h : (strContains incident.problem "MVC"
          && !(mapGet sent (incidentKey incident))) = true
      · rw [if_pos h]
        simp only [List.length_cons]
        rw [ih]
        omega
      · rw [if_neg h]
        exact ih sent count

theorem runLoop_mapGet (o : Nat → Bool × PostResult) (incidents : List Incident)
    (sent : List (String × Bool)) (count : Nat) (k : String) :
    mapGet (runLoop o incidents sent count).1 k = true ↔
      (mapGet sent k = true ∨ k ∈ (runLoop o incidents sent count).2.2) := by
  induction incidents generalizing sent count with
  | nil => simp [runLoop_nil]
  | cons incident rest ih =>
      rw [runLoop_cons]
      by_cases h : (strContains incident.problem "MVC"
          && !(mapGet sent (incidentKey incident))) = true
      · rw [if_pos h]
        simp only [List.mem_cons]
        rw [ih]
        rw [mapGet_insert]
        by_cases hk : incidentKey incident = k
        · subst hk
          simp
        · rw [if_neg hk]
          constructor
          · rintro (hs | hm)
            · exact Or.inl hs
            · exact Or.inr (Or.inr hm)
          · rintro (hs | hk2 | hm)
            · exact Or.inl hs
            · exact absurd hk2.symm hk
            · exact Or.inr hm
      · rw [if_neg h]
        exact ih sent count

theorem runLoop_keys (o : Nat → Bool × PostResult) (incidents : List Incident)
    (sent : List (String × Bool)) (count : Nat) (k : String) :
    k ∈ mapKeys (runLoop o incidents sent count).1 ↔
      (k ∈ mapKeys sent ∨ k ∈ (runLoop o incidents sent count).2.2) := by
  induction incidents generalizing sent count with
  | nil => simp [runLoop_nil]
  | cons incident rest ih =>
      rw [runLoop_cons]
      by_cases h : (strContains incident.problem "MVC"
          && !(mapGet sent (incidentKey incident))) = true
      · rw [if_pos h]
        simp only [List.mem_cons]
        rw [ih, mem_mapKeys_insert]
        constructor
        · rintro ((hs | hk) | hm)
          · exact Or.inl hs
          · exact Or.inr (Or.inl hk)
          · exact Or.inr (Or.inr hm)
        · rintro (hs | hk | hm)
          · exact Or.inl (Or.inl hs)
          · exact Or.inl (Or.inr hk)
          · exact Or.inr hm
      · rw [if_neg h]
        exact ih sent count

theorem runLoop_nodup_keys (o : Nat → Bool × PostResult)
    (incidents : List Incident) (sent : List (String × Bool)) (count : Nat)
    (h : (mapKeys sent).Nodup) :
    (mapKeys (runLoop o incidents sent count).1).Nodup := by
  induction incidents generalizing sent count with
  | nil => exact h
  | cons incident rest ih =>
      rw [runLoop_cons]
      by_cases hc : (strContains incident.problem "MVC"
          && !(mapGet sent (incidentKey incident))) = true
      · rw [if_pos hc]
        exact ih _ _ (mapKeys_insert_nodup sent (incidentKey incident) true h)
      · rw [if_neg hc]
        exact ih sent count h

theorem runLoop_not_sent (o : Nat → Bool × PostResult)
    (incidents : List Incident) (sent : List (String × Bool)) (count : Nat)
    (k : String) (h : mapGet sent k = true) :
    k ∉ (runLoop o incidents sent count).2.2 := by
  induction incidents generalizing sent count with
  | nil => simp [runLoop_nil]
  | cons incident rest ih =>
      rw [runLoop_cons]
      by_cases hc : (strContains incident.problem "MVC"
          && !(mapGet sent (incidentKey incident))) = true
      · rw [if_pos hc]
        simp only [List.mem_cons, not_or]
        have hne : incidentKey incident ≠ k := by
          intro he
          have hfalse : mapGet sent (incidentKey incident) = false := by
            rcases Bool.and_eq_true .. |>.mp hc with ⟨_, hneg⟩
            simpa using hneg
          rw [he, h] at hfalse
          exact Bool.noConfusion hfalse
        refine ⟨fun he => hne he.symm, ?_⟩
        apply ih
        rw [mapGet_insert]
        by_cases hk : incidentKey incident = k
        · rw [if_pos hk]
        · rw [if_neg hk]
          exact h
      · rw [if_neg hc]
        exact ih sent count h

theorem runLoop_sends_nodup (o : Nat → Bool × PostResult)
    (incidents : List Incident) (sent : List (String × Bool)) (count : Nat) :
    ((runLoop o incidents sent count).2.2).Nodup := by
  induction incidents generalizing sent count with
  | nil => simp [runLoop_nil]
  | cons incident rest ih =>
      rw [runLoop_cons]
      by_cases hc : (strContains incident.problem "MVC"
          && !(mapGet sent (incidentKey incident))) = true
      · rw [if_pos hc]
        refine List.nodup_cons.mpr ⟨?_, ih _ _⟩
        apply runLoop_not_sent
        rw [mapGet_insert, if_pos rfl]
      · rw [if_neg hc]
        exact ih sent count

theorem runLoop_covers (o : Nat → Bool × PostResult)
    (incidents : List Incident) (sent : List (String × Bool)) (count : Nat)
    (incident : Incident) (hmem : incident ∈ incidents)
    (hmvc : strContains incident.problem "MVC" = true) :
    mapGet (runLoop o incidents sent count).1 (incidentKey incident) = true := by
  induction incidents generalizing sent count with
  | nil => cases hmem
  | cons hd rest ih =>
      rw [runLoop_cons]
      by_cases hc : (strContains hd.problem "MVC"
          && !(mapGet sent (incidentKey hd))) = true
      · rw [if_pos hc]
        rcases List.mem_cons.mp hmem with rfl | hmem2
        · exact (runLoop_mapGet ..).mpr (Or.inl (by rw [mapGet_insert, if_pos rfl]))
        · exact ih _ _ hmem2
      · rw [if_neg hc]
        rcases List.mem_cons.mp hmem with rfl | hmem2
        · have hsent : mapGet sent (incidentKey incident) = true := by
            by_contra hfalse
            rw [Bool.not_eq_true] at hfalse
            apply hc
            rw [hmvc, hfalse]
            rfl
          exact (runLoop_mapGet ..).mpr (Or.inl hsent)
        · exact ih _ _ hmem2

theorem runLoop_no_new (o : Nat → Bool × PostResult)
    (incidents : List Incident) (sent : List (String × Bool)) (count : Nat)
    (h : ∀ incident ∈ incidents, strContains incident.problem "MVC" = true →
      mapGet sent (incidentKey incident) = true) :
    runLoop o incidents sent count = (sent, count, []) := by
  induction incidents with
  | nil => rfl
  | cons incident rest ih =>
      rw [runLoop_cons]
      have hc : (strContains incident.problem "MVC"
          && !(mapGet sent (incidentKey incident))) = false := by
        by_cases hm : strContains incident.problem "MVC" = true
        · rw [hm, h incident (List.mem_cons_self ..) hm]
          rfl
        · rw [Bool.not_eq_true] at hm
          rw [hm]
          rfl
      rw [if_neg (by simp [hc]), ih]
      intro i hi hm
      exact h i (List.mem_cons_of_mem _ hi) hm

/-! ## The loop trace matches the specification-level filter -/

theorem bool_ext (a b : Bool) (h : a = true ↔ b = true) : a = b := by
  cases a <;> cases b <;> simp_all

theorem notifiedSpec_cons (sent0 : List (String × Bool)) (incident : Incident)
    (rest : List Incident) (earlier : List String) :
    notifiedSpec sent0 (incident :: rest) earlier =
      if (strContains incident.problem "MVC"
            && !(mapGet sent0 (incidentKey incident))
            && !(earlier.contains (incidentKey incident))) = true then
        incidentKey incident ::
          notifiedSpec sent0 rest (earlier ++ [incidentKey incident])
      else notifiedSpec sent0 rest earlier := rfl

theorem runLoop_spec_aux (o : Nat → Bool × PostResult)
    (sent0 : List (String × Bool)) (incidents : List Incident)
    (sent : List (String × Bool)) (earlier : List String) (count : Nat)
    (h : ∀ k, mapGet sent k = true ↔ (mapGet sent0 k = true ∨ k ∈ earlier)) :
    (runLoop o incidents sent count).2.2 = notifiedSpec sent0 incidents earlier := by
  induction incidents generalizing sent earlier count with
  | nil => rfl
  | cons incident rest ih =>
      rw [runLoop_cons, notifiedSpec_cons]
      have hcond : (strContains incident.problem "MVC"
            && !(mapGet sent (incidentKey incident))) =
          (strContains incident.problem "MVC"
            && !(mapGet sent0 (incidentKey incident))
            && !(earlier.contains (incidentKey incident))) := by
        apply bool_ext
        simp only [Bool.and_eq_true, Bool.not_eq_true']
        rw [Bool.eq_false_iff, Ne, h (incidentKey incident), not_or,
          Bool.eq_false_iff, Ne, ← listContains_iff, Bool.eq_false_iff, Ne]
        constructor
        · rintro ⟨hm, hs, he⟩
          exact ⟨⟨hm, hs⟩, he⟩
        · rintro ⟨⟨hm, hs⟩, he⟩
          exact ⟨hm, hs, he⟩
      rw [hcond]
      by_cases hc : (strContains incident.problem "MVC"
            && !(mapGet sent0 (incidentKey incident))
            && !(earlier.contains (incidentKey incident))) = true
      · rw [if_pos hc, if_pos hc]
        show incidentKey incident ::
            (runLoop o rest (mapInsert sent (incidentKey incident) true)
              (count + 1)).2.2 = _
        congr 1
        apply ih
        intro k
        rw [mapGet_insert]
        by_cases hk : incidentKey incident = k
        · subst hk
          simp
        · rw [if_neg hk, h k, List.mem_append, List.mem_singleton]
          constructor
          · rintro (hs | he)
            · exact Or.inl hs
            · exact Or.inr (Or.inl he)
          · rintro (hs | he | hke)
            · exact Or.inl hs
            · exact Or.inr he
            · exact absurd hke.symm hk
      · rw [if_neg hc, if_neg hc]
        exact ih sent earlier count h

/-! ## Saving and reloading the state file -/

theorem mapHasKey_append (l1 l2 : List (String × Bool)) (k : String) :
    mapHasKey (l1 ++ l2) k = (mapHasKey l1 k || mapHasKey l2 k) := by
  induction l1 with
  | nil => simp [mapHasKey]
  | cons hd tl ih =>
      obtain ⟨k1, v1⟩ := hd
      by_cases h1 : k1 = k
      · subst h1
        simp [mapHasKey]
      · simp [mapHasKey, if_neg h1, ih]

theorem boolEntries_map_bool (m : List (String × Bool))
    (acc : List (String × Bool)) :
    boolEntries (m.map fun kv => (kv.1, Json.bool kv.2)) acc =
      .ok (m.foldl (fun a kv => mapInsert a kv.1 kv.2) acc) := by
  induction m generalizing acc with
  | nil => rfl
  | cons hd tl ih =>
      obtain ⟨k, v⟩ := hd
      simp only [List.map_cons, boolEntries, List.foldl_cons]
      exact ih (mapInsert acc k v)

theorem foldl_mapInsert_extend (m : List (String × Bool))
    (acc : List (String × Bool)) (hnd : (mapKeys m).Nodup)
    (hdisj : ∀ k ∈ mapKeys m, mapHasKey acc k = false) :
    m.foldl (fun a kv => mapInsert a kv.1 kv.2) acc = acc ++ m := by
  induction m generalizing acc with
  | nil => simp
  | cons hd tl ih =>
      obtain ⟨k, v⟩ := hd
      rw [mapKeys_cons] at hnd hdisj
      simp only [List.foldl_cons]
      rw [mapInsert_extend acc k v (hdisj k (List.mem_cons_self ..))]
      rw [ih (acc ++ [(k, v)]) (List.Nodup.of_cons hnd)]
      · simp
      · intro k2 hk2
        rw [mapHasKey_append, hdisj k2 (List.mem_cons_of_mem _ hk2)]
        have hne : k ≠ k2 := by
          intro he
          subst he
          exact (List.nodup_cons.mp hnd).1 hk2
        simp [mapHasKey, hne]

theorem reload_save (m : List (String × Bool)) (hnd : (mapKeys m).Nodup) :
    loadSentIncidents (some (saveSentIncidents m)) = .ok m := by
  show unmarshalBoolMap (Json.obj (m.map fun kv => (kv.1, Json.bool kv.2))) = .ok m
  show boolEntries (m.map fun kv => (kv.1, Json.bool kv.2)) [] = .ok m
  rw [boolEntries_map_bool]
  rw [foldl_mapInsert_extend m [] hnd (by intro k _; rfl)]
  rw [List.nil_append]

theorem boolEntries_nodup (entries : List (String × Json))
    (acc m : List (String × Bool)) (hacc : (mapKeys acc).Nodup)
    (h : boolEntries entries acc = .ok m) : (mapKeys m).Nodup := by
  induction entries generalizing acc with
  | nil =>
      cases h
      exact hacc
  | cons hd rest ih =>
      obtain ⟨k, v⟩ := hd
      cases v with
      | bool b => exact ih (mapInsert acc k b) (mapKeys_insert_nodup acc k b hacc) h
      | null => exact ih (mapInsert acc k false) (mapKeys_insert_nodup acc k false hacc) h
      | num n => cases h
      | str s => cases h
      | arr elems => cases h
      | obj entries2 => cases h

theorem load_nodup (file : Option FileContent) (m : List (String × Bool))
    (h : loadSentIncidents file = .ok m) : (mapKeys m).Nodup := by
  match file with
  | none =>
      cases h
      exact List.nodup_nil
  | some FileContent.empty =>
      cases h
      exact List.nodup_nil
  | some FileContent.invalid => cases h
  | some (FileContent.json v) =>
      match v with
      | Json.null =>
          cases h
          exact List.nodup_nil
      | Json.obj entries => exact boolEntries_nodup entries [] m List.nodup_nil h
      | Json.bool b => cases h
      | Json.num n => cases h
      | Json.str s => cases h
      | Json.arr elems => cases h

/-! ## Equations for the whole cycle -/

theorem mainRun_fatalLoad (sf : Option FileContent) (fetch : FetchResult)
    (o : Nat → Bool × PostResult) (e : String)
    (h : loadSentIncidents sf = .error e) :
    mainRun sf fetch o = ⟨MainOutcome.fatalLoad, [], []⟩ := by
  simp only [mainRun, h]

theorem mainRun_fatalParse (sf : Option FileContent) (body : FileContent)
    (o : Nat → Bool × PostResult) (m : List (String × Bool)) (e : String)
    (hload : loadSentIncidents sf = .ok m)
    (hparse : unmarshalIncidents body = .error e) :
    mainRun sf (FetchResult.body body) o = ⟨MainOutcome.fatalParse, [], []⟩ := by
  simp only [mainRun, hload, hparse]

theorem mainRun_done (sf : Option FileContent) (body : FileContent)
    (o : Nat → Bool × PostResult) (m : List (String × Bool))
    (incidents : List Incident)
    (hload : loadSentIncidents sf = .ok m)
    (hparse : unmarshalIncidents body = .ok incidents) :
    mainRun sf (FetchResult.body body) o =
      if (runLoop o incidents m 0).2.1 > 0 then
        ⟨MainOutcome.done (runLoop o incidents m 0).2.1,
         [saveSentIncidents (runLoop o incidents m 0).1],
         (runLoop o incidents m 0).2.2⟩
      else
        ⟨MainOutcome.done (runLoop o incidents m 0).2.1, [],
         (runLoop o incidents m 0).2.2⟩ := by
  rcases hr : runLoop o incidents m 0 with ⟨s, n, ks⟩
  simp only [mainRun, hload, hparse, hr]

/-! ## The entry-list layer is the allocated-map case of the Go layer -/

theorem loadSentIncidents_is_entries (file : Option FileContent) :
    loadSentIncidents file = (loadSentIncidentsGo file).map goMapEntries := by
  match file with
  | none => rfl
  | some FileContent.empty => rfl
  | some FileContent.invalid => rfl
  | some (FileContent.json v) =>
      match v with
      | Json.null => rfl
      | Json.bool b => rfl
      | Json.num n => rfl
      | Json.str s => rfl
      | Json.arr elems => rfl
      | Json.obj entries =>
          show boolEntries entries [] = _
          cases hbe : boolEntries entries [] with
          | ok m =>
              simp [loadSentIncidentsGo, unmarshalBoolMapGo, hbe, goMapEntries,
                Except.map]
          | error e =>
              simp [loadSentIncidentsGo, unmarshalBoolMapGo, hbe, Except.map]

theorem runLoopGo_cons_mk (o : Nat → Bool × PostResult) (incident : Incident)
    (rest : List Incident) (m : List (String × Bool)) (count : Nat) :
    runLoopGo o (incident :: rest) (GoBoolMap.mk m) count =
      if (strContains incident.problem "MVC"
            && !(mapGet m (incidentKey incident))) = true then
        match runLoopGo o rest
            (GoBoolMap.mk (mapInsert m (incidentKey incident) true)) (count + 1) with
        | GoLoopResult.done s c ks =>
            GoLoopResult.done s c (incidentKey incident :: ks)
        | GoLoopResult.panicked ks =>
            GoLoopResult.panicked (incidentKey incident :: ks)
      else runLoopGo o rest (GoBoolMap.mk m) count := by
  show (if (strContains incident.problem "MVC"
          && !(mapGet m (incidentKey incident))) = true then _ else _) = _
  by_cases h : (strContains incident.problem "MVC"
      && !(mapGet m (incidentKey incident))) = true
  · rw [if_pos h, if_pos h]
    rfl
  · rw [if_neg h, if_neg h]

theorem runLoopGo_mk (o : Nat → Bool × PostResult) (incidents : List Incident)
    (m : List (String × Bool)) (count : Nat) :
    runLoopGo o incidents (GoBoolMap.mk m) count =
      GoLoopResult.done (GoBoolMap.mk (runLoop o incidents m count).1)
        (runLoop o incidents m count).2.1 (runLoop o incidents m count).2.2 := by
  induction incidents generalizing m count with
  | nil => rfl
  | cons incident rest ih =>
      rw [runLoopGo_cons_mk, runLoop_cons]
      by_cases h : (strContains incident.problem "MVC"
          && !(mapGet m (incidentKey incident))) = true
      · rw [if_pos h, if_pos h, ih]
      · rw [if_neg h, if_neg h, ih]

theorem runLoopGo_nil_panics (o : Nat → Bool × PostResult)
    (incident : Incident) (rest : List Incident) (count : Nat)
    (h : strContains incident.problem "MVC" = true) :
    runLoopGo o (incident :: rest) GoBoolMap.nil count =
      GoLoopResult.panicked [incidentKey incident] := by
  show (if (strContains incident.problem "MVC"
          && !(goMapGet GoBoolMap.nil (incidentKey incident))) = true
        then _ else _) = _
  rw [if_pos (by rw [h]; rfl)]
  rfl

/-! ## Concrete data used to exercise the theorems -/

/-- A webhook environment in which every POST succeeds with 204. -/
def oracleOK : Nat → Bool × PostResult := fun _ => (true, PostResult.status 204)

/-- A webhook environment in which every notification fails in transport. -/
def oracleFail : Nat → Bool × PostResult := fun _ => (false, PostResult.transportError)

/-- A sample MVC incident. -/
def exIncident : Incident :=
  { jurisdiction := "Wake County", problem := "MVC with Injuries",
    address := "Main St", lat := 35, long := -78,
    timestamp := "2024-01-01 10:00:00.000" }

/-- The key of `exIncident`. -/
def exKey : String := "2024-01-01 10:00:00.000 Main St"

/-- A second MVC incident with a different key. -/
def exIncident2 : Incident :=
  { jurisdiction := "Wake County", problem := "MVC",
    address := "Oak Ave", lat := 35, long := -78,
    timestamp := "2024-01-01 11:00:00.000" }

/-! ## Claims -/

/-- C1 counterexample: a state file holding the JSON literal `null` loads
without error as the nil map, and a feed of two fresh MVC incidents then
notifies only the first: the assignment marking its key panics on the nil
map, so the second incident — whose problem contains "MVC", whose key the
loaded set does not hold, and whose key differs from the earlier-notified
one — is never notified.  This refutes the claim's "notified if" direction
as stated for every loaded sent-set. -/
theorem loop_notifies_iff_new_mvc_cx :
    loadSentIncidentsGo (some (FileContent.json Json.null)) =
      Except.ok GoBoolMap.nil ∧
    strContains exIncident2.problem "MVC" = true ∧
    goMapGet GoBoolMap.nil (incidentKey exIncident2) = false ∧
    incidentKey exIncident2 ≠ incidentKey exIncident ∧
    runLoopGo oracleOK [exIncident, exIncident2] GoBoolMap.nil 0 =
      GoLoopResult.panicked [incidentKey exIncident] ∧
    incidentKey exIncident2 ∉ [incidentKey exIncident] := by
  refine ⟨rfl, by decide, rfl, by decide, by decide, by decide⟩

/-- C1 amended: whenever the loaded sent-set is an allocated map — every
case except a state file holding the JSON literal `null` — the loop
completes and an incident is notified iff its problem text contains the
case-sensitive substring "MVC" and its key is neither in the loaded sent-set
(mapped to `true`) nor equal to the key of an earlier-notified incident of
the same run (`notifiedSpec`, which also gives feed order and each unique
key at most once, `Nodup`); when the loaded map is nil, the first incident
passing the filter is notified and the run then panics marking its key, so
no later incident is notified. -/
theorem mvc_filter_iff_on_allocated_state :
    (∀ (o : Nat → Bool × PostResult) (incidents : List Incident)
        (m : List (String × Bool)),
      runLoopGo o incidents (GoBoolMap.mk m) 0 =
        GoLoopResult.done (GoBoolMap.mk (runLoop o incidents m 0).1)
          (runLoop o incidents m 0).2.1 (notifiedSpec m incidents []) ∧
      (notifiedSpec m incidents []).Nodup) ∧
    (∀ (o : Nat → Bool × PostResult) (incident : Incident)
        (rest : List Incident) (count : Nat),
      strContains incident.problem "MVC" = true →
      runLoopGo o (incident :: rest) GoBoolMap.nil count =
        GoLoopResult.panicked [incidentKey incident]) := by
  constructor
  · intro o incidents m
    have hspec : (runLoop o incidents m 0).2.2 = notifiedSpec m incidents [] :=
      runLoop_spec_aux o m incidents m [] 0 (fun k => by simp)
    constructor
    · rw [runLoopGo_mk, hspec]
    · rw [← hspec]
      exact runLoop_sends_nodup ..
  · exact runLoopGo_nil_panics

/-- Witness for the amended C1: the nil-map branch at a concrete incident. -/
theorem mvc_filter_iff_on_allocated_state_witness :
    runLoopGo oracleOK [exIncident] GoBoolMap.nil 0 =
      GoLoopResult.panicked [incidentKey exIncident] :=
  mvc_filter_iff_on_allocated_state.2 oracleOK exIncident [] 0 (by decide)

/-- C4: the incident key is exactly the timestamp, a single space, and the
address; in particular the key of timestamp "2024-01-01 10:00:00.000" with
address "Main St" is "2024-01-01 10:00:00.000 Main St". -/
theorem incidentKey_is_timestamp_space_address :
    (∀ incident : Incident,
      incidentKey incident = incident.timestamp ++ " " ++ incident.address) ∧
    incidentKey
        { jurisdiction := "", problem := "", address := "Main St",
          lat := 0, long := 0, timestamp := "2024-01-01 10:00:00.000" } =
      "2024-01-01 10:00:00.000 Main St" := by
  exact ⟨fun incident => rfl, by decide⟩

/-- C5: the severity color is chosen by case-insensitive substring match on
the problem text with first-matching-rule-wins order: "injur" gives the
high-severity marker 15158332, otherwise "damage" or "hit & run" gives the
medium marker 15844367, otherwise the default 3447003; the embed built for an
incident carries exactly this color, and the three spec examples evaluate as
stated. -/
theorem embedColor_severity_rules :
    (∀ p, strContains (strToLower p) "injur" = true →
      embedColor p = 15158332) ∧
    (∀ p, strContains (strToLower p) "injur" = false →
      (strContains (strToLower p) "damage"
        || strContains (strToLower p) "hit & run") = true →
      embedColor p = 15844367) ∧
    (∀ p, strContains (strToLower p) "injur" = false →
      (strContains (strToLower p) "damage"
        || strContains (strToLower p) "hit & run") = false →
      embedColor p = 3447003) ∧
    (∀ incident : Incident,
      (buildEmbed incident).color = embedColor incident.problem) ∧
    embedColor "Injury MVC" = 15158332 ∧
    embedColor "MVC w/ Damage" = 15844367 ∧
    embedColor "MVC" = 3447003 := by
  refine ⟨?_, ?_, ?_, fun incident => rfl, by decide, by decide, by decide⟩
  · intro p h
    simp [embedColor, h]
  · intro p h1 h2
    simp [embedColor, h1, h2]
  · intro p h1 h2
    simp [embedColor, h1, h2]

/-- Witness for C5 at concrete problem texts. -/
theorem embedColor_severity_rules_witness :
    embedColor "No Injuries Reported" = 15158332 ∧
    embedColor "Hit & Run" = 15844367 ∧
    embedColor "Vehicle Fire" = 3447003 :=
  ⟨embedColor_severity_rules.1 "No Injuries Reported" (by decide),
   embedColor_severity_rules.2.1 "Hit & Run" (by decide) (by decide),
   embedColor_severity_rules.2.2.1 "Vehicle Fire" (by decide) (by decide)⟩

/-- C7: the webhook outcome never reaches the cycle driver.  First, the
whole loop result (final map, alert count, trace) is identical under any two
webhook environments — in particular under one where every notification
fails.  Second, for an incident that passes the filter, the loop
unconditionally adds its key (mapped to `true`), counts the alert, prepends
the key to the trace, and proceeds to the rest of the feed. -/
theorem notify_failure_never_propagates :
    (∀ (o1 o2 : Nat → Bool × PostResult) (incidents : List Incident)
        (sent : List (String × Bool)) (count : Nat),
      runLoop o1 incidents sent count = runLoop o2 incidents sent count) ∧
    (∀ (o : Nat → Bool × PostResult) (incident : Incident)
        (rest : List Incident) (sent : List (String × Bool)) (count : Nat),
      (strContains incident.problem "MVC"
        && !(mapGet sent (incidentKey incident))) = true →
      runLoop o (incident :: rest) sent count =
        ((runLoop o rest (mapInsert sent (incidentKey incident) true) (count + 1)).1,
         (runLoop o rest (mapInsert sent (incidentKey incident) true) (count + 1)).2.1,
         incidentKey incident ::
           (runLoop o rest (mapInsert sent (incidentKey incident) true) (count + 1)).2.2) ∧
      mapGet (mapInsert sent (incidentKey incident) true) (incidentKey incident) = true) := by
  constructor
  · exact runLoop_oracle_irrelevant
  · intro o incident rest sent count h
    constructor
    · rw [runLoop_cons, if_pos h]
    · rw [mapGet_insert, if_pos rfl]

/-- Witness for C7: a fresh MVC incident processed under the always-failing
webhook environment. -/
theorem notify_failure_never_propagates_witness :
    runLoop oracleFail [exIncident] [] 0 =
      ((runLoop oracleFail [] (mapInsert [] (incidentKey exIncident) true) 1).1,
       (runLoop oracleFail [] (mapInsert [] (incidentKey exIncident) true) 1).2.1,
       incidentKey exIncident ::
         (runLoop oracleFail [] (mapInsert [] (incidentKey exIncident) true) 1).2.2) ∧
    mapGet (mapInsert [] (incidentKey exIncident) true) (incidentKey exIncident) = true :=
  notify_failure_never_propagates.2 oracleFail exIncident [] [] 0 (by decide)

/-- C10: the in-memory sent-set grows monotonically during a cycle: a key
maps to `true` after the loop iff it mapped to `true` before or was notified
this run, and a key is present after the loop iff it was present before or
was notified this run — so loaded entries are never removed and the
additions are exactly the notified keys. -/
theorem sentset_monotone_exact (o : Nat → Bool × PostResult)
    (incidents : List Incident) (sent : List (String × Bool)) (count : Nat)
    (k : String) :
    (mapGet (runLoop o incidents sent count).1 k = true ↔
      (mapGet sent k = true ∨ k ∈ (runLoop o incidents sent count).2.2)) ∧
    (k ∈ mapKeys (runLoop o incidents sent count).1 ↔
      (k ∈ mapKeys sent ∨ k ∈ (runLoop o incidents sent count).2.2)) :=
  ⟨runLoop_mapGet o incidents sent count k, runLoop_keys o incidents sent count k⟩

/-- C2 counterexample: the state file maps the key of `exIncident` to
`false`.  The key is present in the loaded mapping, yet the incident is
re-notified: the Go dedup check is `!sentIncidents[key]`, which reads the
stored boolean, not the key's presence. -/
theorem key_mapped_false_renotified_cx :
    loadSentIncidents
        (some (FileContent.json (Json.obj [(exKey, Json.bool false)]))) =
      .ok [(exKey, false)] ∧
    mapHasKey [(exKey, false)] (incidentKey exIncident) = true ∧
    (runLoop oracleOK [exIncident] [(exKey, false)] 0).2.2 =
      [incidentKey exIncident] := by
  refine ⟨rfl, by decide, by decide⟩

/-- C2 amended: a key of the loaded mapping is treated as already sent iff it
is mapped to `true`.  A key mapped to `true` is never notified in the run; an
incident whose key is mapped to `false` (or absent) and whose problem
contains "MVC" is notified when processed. -/
theorem loaded_key_sent_iff_true (o : Nat → Bool × PostResult)
    (m : List (String × Bool)) (incidents : List Incident)
    (incident : Incident) (rest : List Incident) :
    (mapGet m (incidentKey incident) = true →
      incidentKey incident ∉ (runLoop o incidents m 0).2.2) ∧
    (mapGet m (incidentKey incident) = false →
      strContains incident.problem "MVC" = true →
      (runLoop o (incident :: rest) m 0).2.2 =
        incidentKey incident ::
          (runLoop o rest (mapInsert m (incidentKey incident) true) 1).2.2) := by
  constructor
  · exact fun h => runLoop_not_sent o incidents m 0 _ h
  · intro hfalse hmvc
    rw [runLoop_cons, if_pos (by rw [hmvc, hfalse]; rfl)]

/-- Witness for the amended C2: a key stored as `true` blocks notification; a
key stored as `false` does not. -/
theorem loaded_key_sent_iff_true_witness :
    (incidentKey exIncident ∉ (runLoop oracleOK [exIncident] [(exKey, true)] 0).2.2) ∧
    (runLoop oracleOK (exIncident :: []) [(exKey, false)] 0).2.2 =
      incidentKey exIncident ::
        (runLoop oracleOK [] (mapInsert [(exKey, false)] (incidentKey exIncident) true) 1).2.2 :=
  ⟨(loaded_key_sent_iff_true oracleOK [(exKey, true)] [exIncident] exIncident []).1
      (by decide),
   (loaded_key_sent_iff_true oracleOK [(exKey, false)] [] exIncident []).2
      (by decide) (by decide)⟩

/-- Whether a JSON entry value is stored without error by Go's unmarshal into
a `bool` target: a boolean, or `null` (which stores nothing). -/
def looseBoolVal (v : Json) : Bool :=
  match v with
  | Json.bool _ => true
  | Json.null => true
  | _ => false

/-- Whether Go's `json.Unmarshal` into `map[string]bool` accepts the
document: the literal `null`, or an object whose values are each either a
boolean or `null`. -/
def goAcceptedState (v : Json) : Bool :=
  match v with
  | Json.null => true
  | Json.obj entries => entries.all fun kv => looseBoolVal kv.2
  | _ => false

theorem boolEntries_error_of_bad (entries : List (String × Json))
    (acc : List (String × Bool))
    (h : (entries.all fun kv => looseBoolVal kv.2) = false) :
    ∃ e, boolEntries entries acc = .error e := by
  induction entries generalizing acc with
  | nil => simp at h
  | cons hd rest ih =>
      obtain ⟨k, v⟩ := hd
      cases v with
      | bool b =>
          rw [List.all_cons] at h
          simp only [looseBoolVal, Bool.true_and] at h
          exact ih (mapInsert acc k b) h
      | null =>
          rw [List.all_cons] at h
          simp only [looseBoolVal, Bool.true_and] at h
          exact ih (mapInsert acc k false) h
      | num n => exact ⟨_, rfl⟩
      | str s => exact ⟨_, rfl⟩
      | arr elems => exact ⟨_, rfl⟩
      | obj entries2 => exact ⟨_, rfl⟩

theorem boolEntries_ok_of_good (entries : List (String × Json))
    (acc : List (String × Bool))
    (h : (entries.all fun kv => looseBoolVal kv.2) = true) :
    ∃ m, boolEntries entries acc = .ok m := by
  induction entries generalizing acc with
  | nil => exact ⟨acc, rfl⟩
  | cons hd rest ih =>
      obtain ⟨k, v⟩ := hd
      rw [List.all_cons] at h
      cases v with
      | bool b =>
          simp only [looseBoolVal, Bool.true_and] at h
          exact ih (mapInsert acc k b) h
      | null =>
          simp only [looseBoolVal, Bool.true_and] at h
          exact ih (mapInsert acc k false) h
      | num n => simp [looseBoolVal] at h
      | str s => simp [looseBoolVal] at h
      | arr elems => simp [looseBoolVal] at h
      | obj entries2 => simp [looseBoolVal] at h

/-- C6 counterexample: the state file containing the JSON literal `null` —
non-empty content that does not parse as a key-to-boolean mapping
(`isBoolObj` is false) — loads as the empty set with no error, because Go's
`json.Unmarshal` treats a top-level `null` as a successful no-op. -/
theorem null_state_file_loads_cx :
    loadSentIncidents (some (FileContent.json Json.null)) = .ok [] ∧
    isBoolObj Json.null = false :=
  ⟨rfl, rfl⟩

/-- C6 amended: `load` returns the empty set and no error when the state
file does not exist or is empty; when the file exists and is non-empty,
`load` fails exactly when the bytes are not valid JSON, or are a JSON
document other than `null` that is not an object with only boolean (or
`null`) values — Go's unmarshal accepts a top-level `null` (yielding the
empty set) and `null` object values (stored as `false`) without error. -/
theorem load_success_and_error_cases :
    loadSentIncidents none = .ok [] ∧
    loadSentIncidents (some FileContent.empty) = .ok [] ∧
    (∃ e, loadSentIncidents (some FileContent.invalid) = .error e) ∧
    (∀ v, goAcceptedState v = false →
      ∃ e, loadSentIncidents (some (FileContent.json v)) = .error e) ∧
    (∀ v, goAcceptedState v = true →
      ∃ m, loadSentIncidents (some (FileContent.json v)) = .ok m) := by
  refine ⟨rfl, rfl, ⟨_, rfl⟩, ?_, ?_⟩
  · intro v hv
    cases v with
    | null => simp [goAcceptedState] at hv
    | bool b => exact ⟨_, rfl⟩
    | num n => exact ⟨_, rfl⟩
    | str s => exact ⟨_, rfl⟩
    | arr elems => exact ⟨_, rfl⟩
    | obj entries =>
        simp only [goAcceptedState] at hv
        exact boolEntries_error_of_bad entries [] hv
  · intro v hv
    cases v with
    | null => exact ⟨[], rfl⟩
    | bool b => simp [goAcceptedState] at hv
    | num n => simp [goAcceptedState] at hv
    | str s => simp [goAcceptedState] at hv
    | arr elems => simp [goAcceptedState] at hv
    | obj entries =>
        simp only [goAcceptedState] at hv
        exact boolEntries_ok_of_good entries [] hv

/-- Witness for the amended C6: a JSON array is rejected, a one-entry boolean
object is accepted. -/
theorem load_success_and_error_cases_witness :
    (∃ e, loadSentIncidents (some (FileContent.json (Json.arr []))) = .error e) ∧
    (∃ m, loadSentIncidents
        (some (FileContent.json (Json.obj [("k1 a", Json.bool true)]))) = .ok m) :=
  ⟨load_success_and_error_cases.2.2.2.1 (Json.arr []) (by decide),
   load_success_and_error_cases.2.2.2.2 (Json.obj [("k1 a", Json.bool true)])
      (by decide)⟩

/-- C8: when the state file loads but the feed body does not parse as a JSON
array of incidents — for example the body `{}` — the cycle aborts at the
unmarshal `log.Fatalf` with no notification attempted and no state-file
write. -/
theorem malformed_feed_aborts (sf : Option FileContent)
    (o : Nat → Bool × PostResult) (m : List (String × Bool))
    (body : FileContent) (e : String)
    (hload : loadSentIncidents sf = .ok m)
    (hparse : unmarshalIncidents body = .error e) :
    mainRun sf (FetchResult.body body) o = ⟨MainOutcome.fatalParse, [], []⟩ ∧
    ∃ e2, unmarshalIncidents (FileContent.json (Json.obj [])) = .error e2 :=
  ⟨mainRun_fatalParse sf body o m e hload hparse, ⟨_, rfl⟩⟩

/-- Witness for C8: no pre-existing state file and the feed body `{}`. -/
theorem malformed_feed_aborts_witness :
    mainRun none (FetchResult.body (FileContent.json (Json.obj []))) oracleOK =
      ⟨MainOutcome.fatalParse, [], []⟩ ∧
    ∃ e2, unmarshalIncidents (FileContent.json (Json.obj [])) = .error e2 :=
  malformed_feed_aborts none oracleOK [] (FileContent.json (Json.obj []))
    "json: cannot unmarshal value into Go value of type []main.Incident" rfl rfl

/-- C9: the state file is written at most once per cycle; on a completed
cycle it is written iff at least one new alert was sent, and when nothing was
written the persisted file is unchanged. -/
theorem state_file_written_once_iff_new (sf : Option FileContent)
    (fetch : FetchResult) (o : Nat → Bool × PostResult) :
    (mainRun sf fetch o).writes.length ≤ 1 ∧
    (∀ n, (mainRun sf fetch o).outcome = MainOutcome.done n →
      ((mainRun sf fetch o).writes = [] ↔ n = 0)) ∧
    ((mainRun sf fetch o).writes = [] →
      fileAfter sf (mainRun sf fetch o).writes = sf) := by
  cases hload : loadSentIncidents sf with
  | error e =>
      rw [mainRun_fatalLoad sf fetch o e hload]
      refine ⟨by simp, ?_, fun _ => rfl⟩
      intro n hn
      simp at hn
  | ok m =>
    cases fetch with
    | transportError =>
        simp only [mainRun, hload]
        refine ⟨by simp, ?_, fun _ => rfl⟩
        intro n hn
        simp at hn
    | readError =>
        simp only [mainRun, hload]
        refine ⟨by simp, ?_, fun _ => rfl⟩
        intro n hn
        simp at hn
    | body b =>
      cases hparse : unmarshalIncidents b with
      | error e =>
          rw [mainRun_fatalParse sf b o m e hload hparse]
          refine ⟨by simp, ?_, fun _ => rfl⟩
          intro n hn
          simp at hn
      | ok incidents =>
          rw [mainRun_done sf b o m incidents hload hparse]
          by_cases hn : (runLoop o incidents m 0).2.1 > 0
          · rw [if_pos hn]
            refine ⟨by simp, ?_, ?_⟩
            · intro n hdone
              simp only [MainOutcome.done.injEq] at hdone
              subst hdone
              constructor
              · intro habs
                cases habs
              · intro h0
                omega
            · intro habs
              cases habs
          · rw [if_neg hn]
            refine ⟨by simp, ?_, fun _ => rfl⟩
            intro n hdone
            simp only [MainOutcome.done.injEq] at hdone
            subst hdone
            constructor
            · intro _
              omega
            · intro _
              rfl

/-- Witness for C9: a feed body of JSON `null` (the nil slice) completes with
zero alerts, writes nothing, and leaves the state file unchanged. -/
theorem state_file_written_once_iff_new_witness :
    ((mainRun none (FetchResult.body (FileContent.json Json.null)) oracleOK).writes
        = [] ↔ (0 : Nat) = 0) ∧
    fileAfter none
        (mainRun none (FetchResult.body (FileContent.json Json.null)) oracleOK).writes
      = none :=
  ⟨(state_file_written_once_iff_new none
      (FetchResult.body (FileContent.json Json.null)) oracleOK).2.1 0 rfl,
   (state_file_written_once_iff_new none
      (FetchResult.body (FileContent.json Json.null)) oracleOK).2.2 rfl⟩

/-- C3: if a cycle completes (outcome `done n` with writes `w`), then a
second cycle against the unchanged feed, loading whatever the first run left
on disk (`fileAfter sf w`: the persisted save if one happened, the original
file otherwise), completes with zero new alerts, no notification, and no
write — whatever the webhook environments of the two runs. -/
theorem second_run_sends_nothing (sf : Option FileContent) (fetch : FetchResult)
    (o1 o2 : Nat → Bool × PostResult) (n : Nat) (w : List FileContent)
    (ks : List String)
    (h : mainRun sf fetch o1 = ⟨MainOutcome.done n, w, ks⟩) :
    mainRun (fileAfter sf w) fetch o2 = ⟨MainOutcome.done 0, [], []⟩ := by
  cases hload : loadSentIncidents sf with
  | error e =>
      rw [mainRun_fatalLoad sf fetch o1 e hload] at h
      simp at h
  | ok m =>
    cases fetch with
    | transportError =>
        simp only [mainRun, hload] at h
        simp at h
    | readError =>
        simp only [mainRun, hload] at h
        simp at h
    | body b =>
      cases hparse : unmarshalIncidents b with
      | error e =>
          rw [mainRun_fatalParse sf b o1 m e hload hparse] at h
          simp at h
      | ok incidents =>
          rw [mainRun_done sf b o1 m incidents hload hparse] at h
          by_cases hn : (runLoop o1 incidents m 0).2.1 > 0
          · rw [if_pos hn] at h
            have hw : w = [saveSentIncidents (runLoop o1 incidents m 0).1] := by
              injection h with h1 h2 h3
              exact h2.symm
            have hnd1 : (mapKeys (runLoop o1 incidents m 0).1).Nodup :=
              runLoop_nodup_keys o1 incidents m 0 (load_nodup sf m hload)
            have hreload :
                loadSentIncidents
                    (some (saveSentIncidents (runLoop o1 incidents m 0).1)) =
                  .ok ((runLoop o1 incidents m 0).1) :=
              reload_save _ hnd1
            have hfa : fileAfter sf w =
                some (saveSentIncidents (runLoop o1 incidents m 0).1) := by
              rw [hw]
              rfl
            rw [hfa, mainRun_done _ b o2 _ incidents hreload hparse]
            have hzero : runLoop o2 incidents ((runLoop o1 incidents m 0).1) 0 =
                ((runLoop o1 incidents m 0).1, 0, []) :=
              runLoop_no_new o2 incidents _ 0
                (fun i hi hm => runLoop_covers o1 incidents m 0 i hi hm)
            rw [hzero]
            rfl
          · rw [if_neg hn] at h
            have hw : w = [] := by
              injection h with h1 h2 h3
              exact h2.symm
            have hcount : (runLoop o1 incidents m 0).2.1 = 0 := by omega
            have htrace : (runLoop o1 incidents m 0).2.2 = [] := by
              have hc := runLoop_count o1 incidents m 0
              rw [hcount] at hc
              exact List.length_eq_zero.mp (by omega)
            have hfa : fileAfter sf w = sf := by
              rw [hw]
              rfl
            rw [hfa, mainRun_done sf b o2 m incidents hload hparse,
              runLoop_oracle_irrelevant o2 o1 incidents m 0, if_neg hn, hcount,
              htrace]

/-- The feed body used by the idempotence witness: a one-element array whose
object decodes to `exIncident`. -/
def exBody : FileContent :=
  FileContent.json (Json.arr [Json.obj
    [("jurisdiction", Json.str "Wake County"),
     ("problem", Json.str "MVC with Injuries"),
     ("address", Json.str "Main St"),
     ("lat", Json.num 35),
     ("long", Json.num (-78)),
     ("timestamp", Json.str "2024-01-01 10:00:00.000")]])

/-- Witness for C3: a first run from no state file sends one alert and saves;
the second run against the same feed sends nothing. -/
theorem second_run_sends_nothing_witness :
    mainRun (fileAfter none [saveSentIncidents [(incidentKey exIncident, true)]])
        (FetchResult.body exBody) oracleOK = ⟨MainOutcome.done 0, [], []⟩ :=
  second_run_sends_nothing none (FetchResult.body exBody) oracleOK oracleOK 1
    [saveSentIncidents [(incidentKey exIncident, true)]] [incidentKey exIncident]
    rfl
